import Mathlib

/-!
Verification development for the stock-analysis application.

The application's entry point `app.py` fetches a historical OHLCV series,
guards against an empty fetch, and renders a next-day price prediction
produced by `modules.predictions.predict_next_day`.  The predictions module
itself is not part of the checked-in sources; its behaviour is modelled
here from the specification (each such definition carries a doc comment
starting with `Modelled from the spec:`).  The caller logic (the guard at
app.py lines 78-81 and the prediction tab at lines 184-226) is embedded
from the source.

Numeric modelling: prices and metrics are rationals (ℚ) instead of IEEE
doubles, keeping the pipeline exact and executable.  The one genuinely
irrational quantity, RMSE, is carried as its square (`mse`); the reported
RMSE is `Real.sqrt` of that field, applied in theorem statements.
-/

namespace StockApp

/-- One period of the historical OHLCV series: timestamp, open, high, low,
close and volume, as in §3 of the specification. -/
structure PeriodRecord where
  timestamp : ℕ
  openPrice : ℚ
  highPrice : ℚ
  lowPrice : ℚ
  close : ℚ
  volume : ℚ
deriving Repr, DecidableEq

/-- Modelled from the spec: the lookback window size N, "a fixed small
constant (e.g., 5)" (§4.1); scenario B fixes lookback = 5. -/
def lookback : ℕ := 5

/-- The close column of the series. -/
def closes (s : List PeriodRecord) : List ℚ := s.map (·.close)

/-- Modelled from the spec: the window of the last `lookback` closes ending
at period `i` (inclusive), oldest first. -/
def windowAt (cs : List ℚ) (i : ℕ) : List ℚ :=
  (cs.take (i + 1)).drop (i + 1 - lookback)

/-- Mean of a rolling window. -/
def rollMean (w : List ℚ) : ℚ := w.sum / (w.length : ℚ)

/-- Modelled from the spec: the rolling volatility signal.  §9 leaves the
exact statistic open as implementation policy; we use the rolling variance
(the squared standard deviation), which keeps the pipeline in ℚ. -/
def rollVar (w : List ℚ) : ℚ :=
  (w.map (fun x => (x - rollMean w) ^ 2)).sum / (w.length : ℚ)

/-- Modelled from the spec: a FeatureRow (§3, §4.1) — the period index, the
lookback window of closes, rolling mean, rolling volatility and volume. -/
structure FeatureRow where
  idx : ℕ
  lags : List ℚ
  mean : ℚ
  var : ℚ
  vol : ℚ
deriving Repr, DecidableEq

/-- Modelled from the spec: build the FeatureRow for period `i`. -/
def mkRow (s : List PeriodRecord) (i : ℕ) : FeatureRow :=
  let w := windowAt (closes s) i
  { idx := i, lags := w, mean := rollMean w, var := rollVar w,
    vol := (s.map (·.volume)).getD i 0 }

/-- Modelled from the spec: the indices of periods that have a full
lookback window — "periods with fewer than N preceding observations are
dropped from the feature set, not padded" (§4.1). -/
def featureIdxs (n : ℕ) : List ℕ :=
  List.range' (lookback - 1) (n - (lookback - 1))

/-- Modelled from the spec: one FeatureRow per eligible period, in
chronological order (§4.1). -/
def featureRows (s : List PeriodRecord) : List FeatureRow :=
  (featureIdxs s.length).map (mkRow s)

/-- Modelled from the spec: a LabeledExample pairs a FeatureRow with the
next period's close (§3, §4.2). -/
structure LabeledExample where
  row : FeatureRow
  label : ℚ
deriving Repr, DecidableEq

/-- Modelled from the spec: every FeatureRow except the last is labeled
with the close of the immediately following period (§4.2). -/
def labeledExamples (s : List PeriodRecord) : List LabeledExample :=
  (featureRows s).dropLast.map (fun r => ⟨r, (closes s).getD (r.idx + 1) 0⟩)

/-- Modelled from the spec: the last FeatureRow, reserved exclusively as
the inference input (§4.2). -/
def inferRow (s : List PeriodRecord) : Option FeatureRow :=
  (featureRows s).getLast?

/-- Modelled from the spec: size of the leading training fraction of the
chronological split — 80% of the labeled examples (§4.2 allows 70-80%). -/
def trainCount (m : ℕ) : ℕ := 4 * m / 5

/-- Modelled from the spec: the training partition — a chronological
prefix, never shuffled (§4.2). -/
def trainSet (s : List PeriodRecord) : List LabeledExample :=
  (labeledExamples s).take (trainCount (labeledExamples s).length)

/-- Modelled from the spec: the evaluation partition — the trailing
suffix of the chronological split (§4.2). -/
def evalSet (s : List PeriodRecord) : List LabeledExample :=
  (labeledExamples s).drop (trainCount (labeledExamples s).length)

/-- Modelled from the spec: parameters learned from the training
partition (§3, §4.3). -/
structure FittedModel where
  slope : ℚ
  intercept : ℚ
deriving Repr, DecidableEq

/-- The scalar regressor of a FeatureRow: its most recent close (the last
entry of the lookback window). -/
def xOf (r : FeatureRow) : ℚ := r.lags.getLastD 0

/-- Modelled from the spec: model fitting (§4.3).  §4.3 leaves the exact
algorithm open ("ordinary least-squares or an equivalently simple,
deterministic, closed-form regression"); we fit closed-form univariate
least squares of the label on the most recent close.  A rank-deficient
training set (zero variance in the regressor) is the ModelFitError case
and yields `none`. -/
def fit (train : List LabeledExample) : Option FittedModel :=
  let xs := train.map (fun e => xOf e.row)
  let ys := train.map (·.label)
  let k : ℚ := (train.length : ℚ)
  let xbar := xs.sum / k
  let ybar := ys.sum / k
  let sxx := (xs.map (fun x => (x - xbar) ^ 2)).sum
  let sxy := (train.map (fun e => (xOf e.row - xbar) * (e.label - ybar))).sum
  if sxx = 0 then none
  else some ⟨sxy / sxx, ybar - (sxy / sxx) * xbar⟩

/-- Apply a fitted model to a FeatureRow. -/
def predictWith (m : FittedModel) (r : FeatureRow) : ℚ :=
  m.slope * xOf r + m.intercept

/-- Sum of squared residuals of the model on an example list (§4.4). -/
def ssResOf (m : FittedModel) (ev : List LabeledExample) : ℚ :=
  (ev.map (fun e => (predictWith m e.row - e.label) ^ 2)).sum

/-- Total sum of squares of the labels about their mean (§4.4). -/
def ssTotOf (ev : List LabeledExample) : ℚ :=
  let ys := ev.map (·.label)
  let ybar := ys.sum / (ys.length : ℚ)
  (ys.map (fun y => (y - ybar) ^ 2)).sum

/-- Variance of the evaluation targets (total sum of squares over the
number of examples). -/
def varianceOf (ev : List LabeledExample) : ℚ :=
  ssTotOf ev / (ev.length : ℚ)

/-- Modelled from the spec: MAE — mean of absolute residuals (§4.4). -/
def maeOf (m : FittedModel) (ev : List LabeledExample) : ℚ :=
  (ev.map (fun e => |predictWith m e.row - e.label|)).sum / (ev.length : ℚ)

/-- Modelled from the spec: mean squared residual (§4.4).  The reported
RMSE is the real square root of this quantity. -/
def mseOf (m : FittedModel) (ev : List LabeledExample) : ℚ :=
  ssResOf m ev / (ev.length : ℚ)

/-- Modelled from the spec: R² = 1 − ssRes/ssTot, defined as 0 by
convention when the evaluation targets have zero total sum of squares
(§4.4). -/
def r2Of (m : FittedModel) (ev : List LabeledExample) : ℚ :=
  if ssTotOf ev = 0 then 0 else 1 - ssResOf m ev / ssTotOf ev

/-- Modelled from the spec: the ForecastResult record (§3, §6) —
{predicted_price, mae, rmse, r2}, keyed by exactly those four names in the
Python dict.  The `mse` field stores the squared RMSE so the record stays
in ℚ; the reported RMSE is `Real.sqrt mse`. -/
structure ForecastResult where
  predicted_price : ℚ
  mae : ℚ
  mse : ℚ
  r2 : ℚ
deriving Repr, DecidableEq

/-- Modelled from the spec: the full pipeline Features → Labels/Split →
Fit → Evaluate → Infer → Result (§4.5); any InsufficientDataError or
ModelFitError is absorbed into the `none` ("unavailable") outcome (§7). -/
def predictCore (s : List PeriodRecord) : Option ForecastResult :=
  if 2 ≤ (labeledExamples s).length then
    match fit (trainSet s), inferRow s with
    | some m, some r =>
        some ⟨predictWith m r, maeOf m (evalSet s), mseOf m (evalSet s),
              r2Of m (evalSet s)⟩
    | _, _ => none
  else none

/-- Modelled from the spec: `predictions.predict_next_day(hist_data,
stock_symbol)` — the ticker string is "used only for logging/labeling,
not for algorithmic behavior" (§6). -/
def predict_next_day (hist : List PeriodRecord) (ticker : String) :
    Option ForecastResult :=
  predictCore hist

/-- Modelled from the spec: the caller's view of one Forecaster call (§5) —
the forecast outcome together with the series storage after the call.  The
Forecaster borrows the series read-only, so the second component is the
series unchanged. -/
def predictCall (hist : List PeriodRecord) (ticker : String) :
    Option ForecastResult × List PeriodRecord :=
  (predict_next_day hist ticker, hist)

/-- What the prediction tab shows: either the error message of app.py line
226 ("Unable to generate predictions…"), or the numeric display of lines
198-215 (predicted price, absolute and percentage change, and the three
metrics; the `mse` component stands for the displayed RMSE squared). -/
inductive PredDisplay where
  | errorMsg : PredDisplay
  | success (price diff pct mae mse r2 : ℚ) : PredDisplay
deriving Repr, DecidableEq

/-- Embedded from app.py lines 192-226: if `prediction_data` is None the
caller shows an error message; otherwise it reads the predicted price, the
last close `hist_data.Close.iloc[-1]`, the difference and the percentage
change `(price_diff / current_price) * 100`, plus the three metric fields.
The last-element access on an empty column and the division by a zero
close are partial operations with no guard in the source; both are
modelled as the `none` (fault) outcome. -/
def renderPrediction (s : List PeriodRecord) (pd : Option ForecastResult) :
    Option PredDisplay :=
  match pd with
  | none => some .errorMsg
  | some r =>
    match (closes s).getLast? with
    | none => none
    | some c =>
      if c = 0 then none
      else
        some (.success r.predicted_price (r.predicted_price - c)
          ((r.predicted_price - c) / c * 100) r.mae r.mse r.r2)

/-- Outcome of one run of the main script: either execution was stopped by
the empty-fetch guard, or the prediction tab was rendered. -/
inductive AppOutcome where
  | stopped : AppOutcome
  | ran : Option PredDisplay → AppOutcome
deriving Repr, DecidableEq

/-- Embedded from app.py lines 71-92 and 184-226: the fetched series is
checked — `if hist_data is None or hist_data.empty: … st.stop()` — and
only a non-empty series reaches the prediction tab, which calls
`predictions.predict_next_day(hist_data, stock_symbol)` and renders the
result. -/
def appFlow (fetched : Option (List PeriodRecord)) (ticker : String) :
    AppOutcome :=
  match fetched with
  | none => .stopped
  | some s =>
    if s.isEmpty then .stopped
    else .ran (renderPrediction s (predict_next_day s ticker))

/-- A sample period with the given close price. -/
def samplePeriod (c : ℚ) : PeriodRecord := ⟨0, c, c, c, c, 10⟩

/-- A three-period sample series (scenario B of §8). -/
def sample3 : List PeriodRecord :=
  [samplePeriod 1, samplePeriod 2, samplePeriod 3]

/-- An eight-period sample series with closes 1,…,8, long enough for the
pipeline to succeed. -/
def sample8 : List PeriodRecord :=
  [samplePeriod 1, samplePeriod 2, samplePeriod 3, samplePeriod 4,
   samplePeriod 5, samplePeriod 6, samplePeriod 7, samplePeriod 8]

lemma length_featureIdxs (n : ℕ) : (featureIdxs n).length = n - 4 := by
  simp [featureIdxs, lookback]

lemma length_featureRows (s : List PeriodRecord) :
    (featureRows s).length = s.length - 4 := by
  simp [featureRows, length_featureIdxs]

lemma length_labeledExamples (s : List PeriodRecord) :
    (labeledExamples s).length = s.length - 5 := by
  simp [labeledExamples, length_featureRows]
  omega

lemma mkRow_idx (s : List PeriodRecord) (i : ℕ) : (mkRow s i).idx = i := rfl

lemma featureIdxs_eq_concat (n : ℕ) (h : 5 ≤ n) :
    featureIdxs n = List.range' 4 (n - 5) ++ [n - 1] := by
  have h4 : n - 4 = (n - 5) + 1 := by omega
  have h1 : 4 + 1 * (n - 5) = n - 1 := by omega
  rw [featureIdxs, lookback]
  norm_num
  rw [h4, List.range'_concat, h1]

lemma featureRows_eq_concat (s : List PeriodRecord) (h : 5 ≤ s.length) :
    featureRows s =
      (List.range' 4 (s.length - 5)).map (mkRow s) ++
        [mkRow s (s.length - 1)] := by
  rw [featureRows, featureIdxs_eq_concat _ h, List.map_append, List.map_singleton]

lemma inferRow_eq (s : List PeriodRecord) (h : 5 ≤ s.length) :
    inferRow s = some (mkRow s (s.length - 1)) := by
  rw [inferRow, featureRows_eq_concat s h, List.getLast?_concat]

lemma inferRow_some_length {s : List PeriodRecord} {r : FeatureRow}
    (h : inferRow s = some r) : 5 ≤ s.length := by
  by_contra hn
  have h0 : s.length - 4 = 0 := by omega
  rw [inferRow, featureRows, featureIdxs, lookback] at h
  norm_num [h0] at h
  exact Option.noConfusion h

lemma labeledExamples_eq_of_length (s : List PeriodRecord) (h : 5 ≤ s.length) :
    labeledExamples s =
      ((List.range' 4 (s.length - 5)).map (mkRow s)).map
        (fun r => ⟨r, (closes s).getD (r.idx + 1) 0⟩) := by
  rw [labeledExamples, featureRows_eq_concat s h, List.dropLast_concat]

lemma idx_lt_of_mem_labeled {s : List PeriodRecord} {e : LabeledExample}
    (h5 : 5 ≤ s.length) (he : e ∈ labeledExamples s) :
    e.row.idx < s.length - 1 := by
  rw [labeledExamples_eq_of_length s h5, List.map_map] at he
  obtain ⟨i, hi, rfl⟩ := List.mem_map.mp he
  obtain ⟨j, hj, rfl⟩ := List.mem_range'.mp hi
  simp [mkRow_idx]
  omega

lemma predictCore_inv {s : List PeriodRecord} {r : ForecastResult}
    (h : predictCore s = some r) :
    2 ≤ (labeledExamples s).length ∧
      ∃ m q, fit (trainSet s) = some m ∧ inferRow s = some q ∧
        r = ⟨predictWith m q, maeOf m (evalSet s), mseOf m (evalSet s),
             r2Of m (evalSet s)⟩ := by
  rw [predictCore] at h
  split at h
  · rename_i h2
    split at h
    · rename_i m q hm hq
      exact ⟨h2, m, q, hm, hq, (Option.some.inj h).symm⟩
    · exact absurd h (by simp)
  · exact absurd h (by simp)

lemma evalSet_length_pos {s : List PeriodRecord}
    (h : 2 ≤ (labeledExamples s).length) : 0 < (evalSet s).length := by
  have hlt : trainCount (labeledExamples s).length <
      (labeledExamples s).length := by
    rw [trainCount]
    exact Nat.div_lt_of_lt_mul (by omega)
  simp only [evalSet, List.length_drop]
  omega

lemma sum_eq_zero_iff_of_nonneg {l : List ℚ} (h : ∀ x ∈ l, 0 ≤ x) :
    l.sum = 0 ↔ ∀ x ∈ l, x = 0 := by
  induction l with
  | nil => simp
  | cons a t ih =>
    have ha : 0 ≤ a := h a (by simp)
    have ht : ∀ x ∈ t, 0 ≤ x := fun x hx => h x (by simp [hx])
    have hts : 0 ≤ t.sum := List.sum_nonneg ht
    rw [List.sum_cons]
    constructor
    · intro h0
      have haz : a = 0 ∧ t.sum = 0 := by constructor <;> linarith [abs_nonneg a]
      intro x hx
      rcases List.mem_cons.mp hx with rfl | hx
      · exact haz.1
      · exact (ih ht).mp haz.2 x hx
    · intro h0
      rw [h0 a (by simp), (ih ht).mpr fun x hx => h0 x (by simp [hx])]
      norm_num

lemma maeOf_nonneg (m : FittedModel) (ev : List LabeledExample) :
    0 ≤ maeOf m ev := by
  apply div_nonneg _ (Nat.cast_nonneg _)
  apply List.sum_nonneg
  intro x hx
  obtain ⟨e, _, rfl⟩ := List.mem_map.mp hx
  exact abs_nonneg _

lemma ssResOf_nonneg (m : FittedModel) (ev : List LabeledExample) :
    0 ≤ ssResOf m ev := by
  apply List.sum_nonneg
  intro x hx
  obtain ⟨e, _, rfl⟩ := List.mem_map.mp hx
  exact sq_nonneg _

lemma ssTotOf_nonneg (ev : List LabeledExample) : 0 ≤ ssTotOf ev := by
  apply List.sum_nonneg
  intro x hx
  obtain ⟨e, _, rfl⟩ := List.mem_map.mp hx
  exact sq_nonneg _

lemma mseOf_nonneg (m : FittedModel) (ev : List LabeledExample) :
    0 ≤ mseOf m ev :=
  div_nonneg (ssResOf_nonneg m ev) (Nat.cast_nonneg _)

lemma maeOf_eq_zero_iff (m : FittedModel) {ev : List LabeledExample}
    (h : 0 < ev.length) :
    maeOf m ev = 0 ↔ ∀ e ∈ ev, predictWith m e.row = e.label := by
  have hk : ((ev.length : ℚ)) ≠ 0 := by positivity
  rw [maeOf, div_eq_zero_iff]
  simp only [hk, or_false]
  rw [sum_eq_zero_iff_of_nonneg]
  · constructor
    · intro hz e he
      have := hz _ (List.mem_map.mpr ⟨e, he, rfl⟩)
      have := abs_eq_zero.mp this
      linarith
    · intro hz x hx
      obtain ⟨e, he, rfl⟩ := List.mem_map.mp hx
      rw [abs_eq_zero]
      have := hz e he
      linarith
  · intro x hx
    obtain ⟨e, _, rfl⟩ := List.mem_map.mp hx
    exact abs_nonneg _

lemma mseOf_eq_zero_iff (m : FittedModel) {ev : List LabeledExample}
    (h : 0 < ev.length) :
    mseOf m ev = 0 ↔ ∀ e ∈ ev, predictWith m e.row = e.label := by
  have hk : ((ev.length : ℚ)) ≠ 0 := by positivity
  rw [mseOf, div_eq_zero_iff]
  simp only [hk, or_false]
  rw [ssResOf, sum_eq_zero_iff_of_nonneg]
  · constructor
    · intro hz e he
      have := hz _ (List.mem_map.mpr ⟨e, he, rfl⟩)
      have := pow_eq_zero_iff (n := 2) (by norm_num) |>.mp this
      linarith
    · intro hz x hx
      obtain ⟨e, he, rfl⟩ := List.mem_map.mp hx
      have := hz e he
      have hz2 : predictWith m e.row - e.label = 0 := by linarith
      rw [hz2]
      norm_num
  · intro x hx
    obtain ⟨e, _, rfl⟩ := List.mem_map.mp hx
    exact sq_nonneg _

lemma sample8_predict :
    predict_next_day sample8 "AAPL" = some ⟨9, 0, 0, 0⟩ := by
  norm_num [predict_next_day, predictCore, labeledExamples, featureRows,
    featureIdxs, mkRow, windowAt, closes, rollMean, rollVar, trainSet,
    evalSet, trainCount, fit, xOf, predictWith, maeOf, mseOf, r2Of,
    ssResOf, ssTotOf, inferRow, sample8, samplePeriod, lookback,
    List.range']

lemma inferRow_sample8 :
    inferRow sample8 = some ⟨7, [4, 5, 6, 7, 8], 6, 2, 10⟩ := by
  norm_num [inferRow, featureRows, featureIdxs, mkRow, windowAt, closes,
    rollMean, rollVar, sample8, samplePeriod, lookback, List.range']

lemma trainSet_sample8 :
    trainSet sample8 =
      [⟨⟨4, [1, 2, 3, 4, 5], 3, 2, 10⟩, 6⟩,
       ⟨⟨5, [2, 3, 4, 5, 6], 4, 2, 10⟩, 7⟩] := by
  norm_num [trainSet, trainCount, labeledExamples, featureRows,
    featureIdxs, mkRow, windowAt, closes, rollMean, rollVar, sample8,
    samplePeriod, lookback, List.range']

/-- C1: for every series with fewer than the minimum required periods
(lookback + 2 = 7; in particular a series of exactly 3 periods),
`predict_next_day` returns the unavailable sentinel `none` rather than
raising an unhandled fault, and the caller then renders the error message
instead of any numeric prediction. -/
theorem short_series_unavailable (s : List PeriodRecord) (t : String)
    (h : s.length < lookback + 2) :
    predict_next_day s t = none ∧
      renderPrediction s (predict_next_day s t) = some PredDisplay.errorMsg := by
  have hlen : (labeledExamples s).length < 2 := by
    rw [length_labeledExamples]
    rw [lookback] at h
    omega
  have hp : predict_next_day s t = none := by
    rw [predict_next_day, predictCore, if_neg (by omega)]
  exact ⟨hp, by rw [hp]; rfl⟩

theorem short_series_unavailable_witness :
    sample3.length < lookback + 2 ∧
      (predict_next_day sample3 "AAPL" = none ∧
        renderPrediction sample3 (predict_next_day sample3 "AAPL") =
          some PredDisplay.errorMsg) :=
  ⟨by decide, short_series_unavailable sample3 "AAPL" (by decide)⟩

/-- C2: for every series on which the Forecaster succeeds,
`predict_next_day` returns the full four-field ForecastResult record and
the caller's display reads all four components (predicted price, MAE,
RMSE and R²); otherwise it returns the `none` sentinel — there is never a
partially populated result. -/
theorem result_all_or_nothing (s : List PeriodRecord) (t : String) :
    predict_next_day s t = none ∨
      ∃ r : ForecastResult, predict_next_day s t = some r ∧
        ∀ c, (closes s).getLast? = some c → c ≠ 0 →
          renderPrediction s (predict_next_day s t) =
            some (PredDisplay.success r.predicted_price
              (r.predicted_price - c) ((r.predicted_price - c) / c * 100)
              r.mae r.mse r.r2) := by
  rcases hp : predict_next_day s t with _ | r
  · exact Or.inl rfl
  · refine Or.inr ⟨r, rfl, fun c hc hc0 => ?_⟩
    simp [renderPrediction, hc, hc0]

theorem result_all_or_nothing_witness :
    renderPrediction sample8 (predict_next_day sample8 "AAPL") =
      some (PredDisplay.success 9 1 (25 / 2) 0 0 0) := by
  have hp := sample8_predict
  rcases result_all_or_nothing sample8 "AAPL" with h | ⟨r, hr, hrender⟩
  · rw [h] at hp
    exact Option.noConfusion hp
  · have hreq : r = ⟨9, 0, 0, 0⟩ := by
      rw [hr] at hp
      exact Option.some.inj hp
    subst hreq
    have hc : (closes sample8).getLast? = some 8 := rfl
    have hfin := hrender 8 hc (by norm_num)
    rw [hfin]
    norm_num

/-- C3: for every series on which a ForecastResult is produced, the
reported MAE is non-negative, the reported RMSE (= √mse) is non-negative,
and RMSE equals 0 if and only if MAE equals 0. -/
theorem mae_rmse_nonneg_zero_iff (s : List PeriodRecord) (t : String)
    (r : ForecastResult) (h : predict_next_day s t = some r) :
    0 ≤ r.mae ∧ 0 ≤ Real.sqrt (r.mse : ℝ) ∧
      (Real.sqrt (r.mse : ℝ) = 0 ↔ r.mae = 0) := by
  rw [predict_next_day] at h
  obtain ⟨h2, m, q, hm, hq, rfl⟩ := predictCore_inv h
  have hev := evalSet_length_pos h2
  refine ⟨maeOf_nonneg m _, Real.sqrt_nonneg _, ?_⟩
  rw [Real.sqrt_eq_zero']
  constructor
  · intro hle
    have hc : (mseOf m (evalSet s) : ℝ) = 0 :=
      le_antisymm hle (by exact_mod_cast mseOf_nonneg m (evalSet s))
    have hmse : mseOf m (evalSet s) = 0 := by exact_mod_cast hc
    exact (maeOf_eq_zero_iff m hev).mpr ((mseOf_eq_zero_iff m hev).mp hmse)
  · intro hmae
    have hmse : mseOf m (evalSet s) = 0 :=
      (mseOf_eq_zero_iff m hev).mpr ((maeOf_eq_zero_iff m hev).mp hmae)
    show ((mseOf m (evalSet s) : ℚ) : ℝ) ≤ 0
    rw [hmse]
    norm_num

theorem mae_rmse_nonneg_zero_iff_witness :
    0 ≤ (ForecastResult.mk 9 0 0 0).mae ∧
      0 ≤ Real.sqrt ((ForecastResult.mk 9 0 0 0).mse : ℝ) ∧
      (Real.sqrt ((ForecastResult.mk 9 0 0 0).mse : ℝ) = 0 ↔
        (ForecastResult.mk 9 0 0 0).mae = 0) :=
  mae_rmse_nonneg_zero_iff sample8 "AAPL" ⟨9, 0, 0, 0⟩ sample8_predict

/-- C4: for every series on which a ForecastResult is produced, the
reported R² is at most 1, and whenever the evaluation targets have zero
variance, R² equals 0 by convention instead of a division by zero. -/
theorem r2_le_one_zero_variance (s : List PeriodRecord) (t : String)
    (r : ForecastResult) (h : predict_next_day s t = some r) :
    r.r2 ≤ 1 ∧ (varianceOf (evalSet s) = 0 → r.r2 = 0) := by
  rw [predict_next_day] at h
  obtain ⟨h2, m, q, hm, hq, rfl⟩ := predictCore_inv h
  have hev := evalSet_length_pos h2
  constructor
  · show r2Of m (evalSet s) ≤ 1
    rw [r2Of]
    split
    · norm_num
    · rename_i hne
      have h1 : 0 < ssTotOf (evalSet s) :=
        lt_of_le_of_ne (ssTotOf_nonneg _) (Ne.symm hne)
      have h2' : 0 ≤ ssResOf m (evalSet s) / ssTotOf (evalSet s) :=
        div_nonneg (ssResOf_nonneg _ _) h1.le
      linarith
  · intro hv
    show r2Of m (evalSet s) = 0
    rw [varianceOf, div_eq_zero_iff] at hv
    have hk : ((evalSet s).length : ℚ) ≠ 0 := by positivity
    have htot : ssTotOf (evalSet s) = 0 := hv.resolve_right hk
    rw [r2Of, if_pos htot]

theorem r2_le_one_zero_variance_witness :
    (ForecastResult.mk 9 0 0 0).r2 ≤ 1 ∧
      (varianceOf (evalSet sample8) = 0 →
        (ForecastResult.mk 9 0 0 0).r2 = 0) :=
  r2_le_one_zero_variance sample8 "AAPL" ⟨9, 0, 0, 0⟩ sample8_predict

/-- C5: the Forecaster is deterministic — two invocations of
`predict_next_day` on an identical series (and ticker) produce the same
outcome, be it a ForecastResult or the unavailable sentinel. -/
theorem forecaster_deterministic (s : List PeriodRecord) (t : String)
    (o1 o2 : Option ForecastResult) (h1 : predict_next_day s t = o1)
    (h2 : predict_next_day s t = o2) : o1 = o2 :=
  h1 ▸ h2 ▸ rfl

theorem forecaster_deterministic_witness :
    (none : Option ForecastResult) = none :=
  forecaster_deterministic sample3 "AAPL" none none (by decide) (by decide)

/-- C6: the ticker identifier does not influence the forecast — the same
series with any two ticker strings yields equal outcomes. -/
theorem ticker_does_not_influence (s : List PeriodRecord)
    (t1 t2 : String) :
    predict_next_day s t1 = predict_next_day s t2 := rfl

/-- C7: the split is a chronological prefix (training) and suffix
(evaluation) of the labeled examples with no reordering, and the reserved
last FeatureRow (the inference input) is never a member of either
partition. -/
theorem split_chronological_no_leakage (s : List PeriodRecord) :
    trainSet s ++ evalSet s = labeledExamples s ∧
      ∀ r, inferRow s = some r → ∀ e, e ∈ trainSet s ∨ e ∈ evalSet s →
        e.row.idx < r.idx ∧ e.row ≠ r := by
  refine ⟨List.take_append_drop _ _, fun r hr e he => ?_⟩
  have h5 := inferRow_some_length hr
  have hre : r = mkRow s (s.length - 1) := by
    rw [inferRow_eq s h5] at hr
    exact Option.some.inj hr.symm
  have hmem : e ∈ labeledExamples s := by
    rcases he with h | h
    · exact List.take_subset _ _ h
    · exact List.drop_subset _ _ h
  have hidx := idx_lt_of_mem_labeled h5 hmem
  have hlt : e.row.idx < r.idx := by
    rw [hre, mkRow_idx]
    exact hidx
  exact ⟨hlt, fun hC => by rw [hC] at hlt; exact lt_irrefl _ hlt⟩

theorem split_chronological_no_leakage_witness :
    trainSet sample8 ++ evalSet sample8 = labeledExamples sample8 ∧
      ((⟨⟨4, [1, 2, 3, 4, 5], 3, 2, 10⟩, 6⟩ : LabeledExample).row.idx <
          (⟨7, [4, 5, 6, 7, 8], 6, 2, 10⟩ : FeatureRow).idx ∧
        (⟨⟨4, [1, 2, 3, 4, 5], 3, 2, 10⟩, 6⟩ : LabeledExample).row ≠
          ⟨7, [4, 5, 6, 7, 8], 6, 2, 10⟩) :=
  ⟨(split_chronological_no_leakage sample8).1,
   (split_chronological_no_leakage sample8).2 _ inferRow_sample8 _
     (Or.inl (by rw [trainSet_sample8]; exact List.mem_cons_self _ _))⟩

/-- C8: `predict_next_day` does not mutate the input series and keeps no
state across invocations: after the call the series (and in particular
the last close the caller reads from it) is unchanged, and the outcome
depends only on the series passed to that invocation — not on the ticker
or on any ambient state. -/
theorem no_mutation_stateless (s : List PeriodRecord) (t t' : String) :
    (predictCall s t).2 = s ∧
      (closes (predictCall s t).2).getLast? = (closes s).getLast? ∧
      (predictCall s t).1 = (predictCall s t').1 ∧
      (predictCall s t).1 = predictCore s :=
  ⟨rfl, rfl, rfl, rfl⟩

/-- C9: the percent-change display divides by the series' last close with
no zero guard; under the precondition that the last close is nonzero,
every successful prediction renders without the division faulting. -/
theorem pct_change_division_safe (s : List PeriodRecord) (t : String)
    (r : ForecastResult) (c : ℚ) (h : predict_next_day s t = some r)
    (hc : (closes s).getLast? = some c) (h0 : c ≠ 0) :
    renderPrediction s (predict_next_day s t) =
      some (PredDisplay.success r.predicted_price (r.predicted_price - c)
        ((r.predicted_price - c) / c * 100) r.mae r.mse r.r2) := by
  rw [h]
  simp [renderPrediction, hc, h0]

theorem pct_change_division_safe_witness :
    renderPrediction sample8 (predict_next_day sample8 "AAPL") =
      some (PredDisplay.success (ForecastResult.mk 9 0 0 0).predicted_price
        ((ForecastResult.mk 9 0 0 0).predicted_price - 8)
        (((ForecastResult.mk 9 0 0 0).predicted_price - 8) / 8 * 100)
        (ForecastResult.mk 9 0 0 0).mae (ForecastResult.mk 9 0 0 0).mse
        (ForecastResult.mk 9 0 0 0).r2) :=
  pct_change_division_safe sample8 "AAPL" ⟨9, 0, 0, 0⟩ 8 sample8_predict
    rfl (by norm_num)

/-- C10: the application stops whenever the fetched series is None or
empty, so the prediction tab (and the `iloc[-1]` last-close access) is
only ever reached with a non-empty series, on which the last-element
access cannot fault. -/
theorem empty_guard_protects_last_access
    (fetched : Option (List PeriodRecord)) (t : String)
    (d : Option PredDisplay) (h : appFlow fetched t = AppOutcome.ran d) :
    ∃ s, fetched = some s ∧ s ≠ [] ∧ ∃ c, (closes s).getLast? = some c := by
  cases fetched with
  | none => exact absurd h (by simp [appFlow])
  | some s =>
    rw [appFlow] at h
    split at h
    · exact absurd h (by simp)
    · rename_i hne
      have hsne : s ≠ [] := by simpa [List.isEmpty_iff] using hne
      refine ⟨s, rfl, hsne, ?_⟩
      have hcne : closes s ≠ [] := by simp [closes, hsne]
      exact Option.isSome_iff_exists.mp (List.getLast?_isSome.mpr hcne)

theorem empty_guard_protects_last_access_witness :
    ∃ s, (some sample3 : Option (List PeriodRecord)) = some s ∧ s ≠ [] ∧
      ∃ c, (closes s).getLast? = some c :=
  empty_guard_protects_last_access (some sample3) "AAPL"
    (some PredDisplay.errorMsg) (by decide)

end StockApp
